import Mathlib

/-!
Shallow embedding of the rate-resolution engine of the Telegram-Rates-Bot
repository (src/services/currency_service.py, constants from src/config.py).

Modelling conventions:
* Python floats are modelled as rationals (ℚ); float arithmetic such as
  `1.0 / rate` becomes exact rational arithmetic.
* Calendar dates are modelled as integers (day numbers); subtracting a
  `timedelta(days=k)` is integer subtraction.  The `strftime("%Y-%m-%d")`
  rendering of a date is modelled by the injective rendering `dateStr`
  (`toString` of the day number); the code only ever compares such strings
  for equality and splits on a dot character that a dash-rendered date
  cannot contain, so any injective dot-free rendering is faithful.
* `datetime.now()` timestamps are modelled as rationals (seconds), passed
  explicitly as a `now` argument; `CACHE_TTL = timedelta(hours=1)` is 3600.
* The network is modelled by oracle functions passed as arguments: for each
  provider, a function from the query parameters to the parsed JSON body
  (`none` = the HTTP fetch returned no data).
* The module-level dict `_rate_cache` is modelled as an association list
  threaded through the stateful functions, which return the updated cache.
-/

namespace RatesBot

/-- config.py: `USE_FALLBACK_DATE = True`. -/
def USE_FALLBACK_DATE : Bool := true

/-- config.py: `MAX_FALLBACK_DAYS = 7`. -/
def MAX_FALLBACK_DAYS : Nat := 7

/-- config.py: `MAX_RETRIES = 3`. -/
def MAX_RETRIES : Nat := 3

/-- config.py: `RETRY_DELAY = 1.0` (seconds). -/
def RETRY_DELAY : ℚ := 1

/-- currency_service.py line 15: `CACHE_TTL = timedelta(hours=1)`, in seconds. -/
def CACHE_TTL : ℚ := 3600

/-- Rendering of a day number as the `"%Y-%m-%d"` date string (see the
modelling conventions at the top of the file). -/
def dateStr (d : ℤ) : String := toString d

/-- A cache entry: `(rate, insertion timestamp, actual_date)`, the value type
of `_rate_cache`. -/
abbrev CacheEntry := ℚ × ℚ × String

/-- The `_rate_cache` dict, as an association list from key to entry. -/
abbrev Cache := List (String × CacheEntry)

/-- Dict lookup: value stored under `k`, if any. -/
def cacheLookup (c : Cache) (k : String) : Option CacheEntry :=
  (c.find? (fun p => p.1 == k)).map (fun p => p.2)

/-- Dict deletion: `del _rate_cache[key]`. -/
def cacheErase (c : Cache) (k : String) : Cache :=
  c.filter (fun p => p.1 != k)

/-- Dict assignment: `_rate_cache[key] = v` (overwrites any previous entry). -/
def cacheStore (c : Cache) (k : String) (v : CacheEntry) : Cache :=
  (k, v) :: cacheErase c k

/-- `_get_cache_key(base, target, date) = f"{base}/{target}:{date}"`. -/
def getCacheKey (base target date : String) : String :=
  base ++ "/" ++ target ++ ":" ++ date

/-- `_get_cached_rate(base, target, date)`.  Returns the optional
`(rate, actual_date)` hit together with the cache after the call (the call
lazily deletes an expired entry). -/
def getCachedRate (c : Cache) (now : ℚ) (base target date : String) :
    Option (ℚ × String) × Cache :=
  let key := getCacheKey base target date
  match cacheLookup c key with
  | some (rate, timestamp, actualDate) =>
      if now - timestamp < CACHE_TTL then (some (rate, actualDate), c)
      else (none, cacheErase c key)
  | none => (none, c)

/-- `_cache_rate(base, target, requested_date, rate, actual_date)`:
stores under the key built from the requested date, stamping `now`. -/
def cacheRate (c : Cache) (now : ℚ) (base target requestedDate : String)
    (rate : ℚ) (actualDate : String) : Cache :=
  cacheStore c (getCacheKey base target requestedDate) (rate, now, actualDate)

/-! ## HTTP fetcher (`_http_json_with_retry`) -/

/-- What one attempt of the `for attempt in range(max_retries)` loop observes:
an HTTP response with a status code and parsed body, or one of the three
exception classes the code catches. -/
inductive AttemptResult (α : Type) where
  | status (code : Nat) (body : α)
  | timeoutErr
  | clientErr
  | unexpectedErr
deriving DecidableEq

/-- One iteration of the retry loop, classified: either the function returns
(`done r`, covering `return data`, the 404 return, the other-status return and
the unexpected-exception return), or the loop continues to the next attempt
(500-or-above, timeout, connection error). -/
def attemptStep {α : Type} : AttemptResult α → Option (Option α)
  | .status code body =>
      if code == 200 then some (some body)
      else if code == 404 then some none
      else if code ≥ 500 then none
      else some none
  | .timeoutErr => none
  | .clientErr => none
  | .unexpectedErr => some none

/-- The retry loop from attempt number `attempt` on, with `fuel` iterations
remaining (`fuel = max_retries - attempt`).  Returns the result together with
the list of back-off delays slept, in order: after a transient failure on
`attempt`, if `attempt < max_retries - 1`, the code sleeps
`RETRY_DELAY * 2 ** attempt`. -/
def httpRetryAux {α : Type} (attempts : Nat → AttemptResult α)
    (maxRetries : Nat) : Nat → Nat → Option α × List ℚ
  | _, 0 => (none, [])
  | attempt, fuel + 1 =>
      match attemptStep (attempts attempt) with
      | some r => (r, [])
      | none =>
          let rest := httpRetryAux attempts maxRetries (attempt + 1) fuel
          if attempt < maxRetries - 1 then
            (rest.1, RETRY_DELAY * 2 ^ attempt :: rest.2)
          else (rest.1, rest.2)

/-- `_http_json_with_retry(url, max_retries)`, with the network abstracted as
the per-attempt oracle `attempts`.  Result plus the sequence of delays. -/
def httpJsonWithRetry {α : Type} (attempts : Nat → AttemptResult α)
    (maxRetries : Nat := MAX_RETRIES) : Option α × List ℚ :=
  httpRetryAux attempts maxRetries 0 maxRetries

/-! ## Provider adapters -/

/-- Parsed JSON body of a Frankfurter-style response: the optional `"rates"`
object (a partial map from currency code to number) and the optional `"date"`
field. -/
structure ApiData where
  rates : Option (String → Option ℚ)
  date : Option String

/-- Frankfurter network oracle: `(base, target, query date) ↦` parsed body of
`GET {FRANKFURTER_BASE_URL}/{date}?from={base}&to={target}`, or `none` when
`_http_json_with_retry` returned `None`. -/
abbrev FrankOracle := String → String → ℤ → Option ApiData

/-- Parsed record of an NBU response array element: the optional `"rate"` and
`"exchangedate"` fields. -/
structure NbuRec where
  rate : Option ℚ
  exchangedate : Option String

/-- NBU network oracle: `(valcode, query date) ↦` parsed body (a JSON list),
or `none` when the fetch returned `None`. -/
abbrev NbuOracle := String → ℤ → Option (List NbuRec)

/-- Backup network oracle: `base ↦` parsed body of
`GET {EXCHANGERATE_API_URL}/{base}`. -/
abbrev BackupOracle := String → Option ApiData

/-- The shared body of the two Frankfurter queries in
`_get_closest_rate_frankfurter` (lines 76-81 and 91-97): if the body has a
`"rates"` object containing `target`, return the rate with
`data.get("date", querydate)`; otherwise nothing. -/
def frankTry (frank : FrankOracle) (base target : String) (qd : ℤ) :
    Option (ℚ × String) :=
  match frank base target qd with
  | some data =>
      match data.rates with
      | some m =>
          match m target with
          | some rate => some (rate, data.date.getD (dateStr qd))
          | none => none
      | none => none
  | none => none

/-- The `for days_back in range(1, MAX_FALLBACK_DAYS + 1)` loop of
`_get_closest_rate_frankfurter`, from `days_back = daysBack` with `fuel`
iterations left.  A successful fallback query returns the provider's
`(rate, actual_date)` unchanged. -/
def frankWalkFrom (frank : FrankOracle) (base target : String) (reqDate : ℤ) :
    Nat → Nat → Option (ℚ × String)
  | _, 0 => none
  | daysBack, fuel + 1 =>
      match frankTry frank base target (reqDate - (daysBack : ℤ)) with
      | some r => some r
      | none => frankWalkFrom frank base target reqDate (daysBack + 1) fuel

/-- `_get_closest_rate_frankfurter(base, target, requested_date)`. -/
def getClosestRateFrankfurter (frank : FrankOracle) (base target : String)
    (reqDate : ℤ) : Option (ℚ × String) :=
  match frankTry frank base target reqDate with
  | some r => some r
  | none =>
      if USE_FALLBACK_DATE then
        frankWalkFrom frank base target reqDate 1 MAX_FALLBACK_DAYS
      else none

/-- `_try_exchangerate_api_backup(base, target, requested_date)`: only
queried when the requested date is today's date. -/
def tryExchangerateApiBackup (backup : BackupOracle) (base target : String)
    (reqDate today : ℤ) : Option (ℚ × String) :=
  if reqDate == today then
    match backup base with
    | some data =>
        match data.rates with
        | some m =>
            match m target with
            | some rate => some (rate, data.date.getD (dateStr reqDate))
            | none => none
        | none => none
    | none => none
  else none

/-- `str.split('.')` on the character list of a string: the maximal runs of
characters between dots (`acc` holds the reversed current run). -/
def splitOnDotAux : List Char → List Char → List (List Char)
  | [], acc => [acc.reverse]
  | c :: rest, acc =>
      if c == '.' then acc.reverse :: splitOnDotAux rest []
      else splitOnDotAux rest (c :: acc)

/-- `rec.get("exchangedate", requested_date)` post-processing in
`_get_nbu_rate_for_currency` (lines 155-158): if the string contains a dot
and splits into exactly three parts, reassemble `DD.MM.YYYY` as
`YYYY-MM-DD`; otherwise keep it. -/
def reformatExchangeDate (s : String) : String :=
  if s.data.contains '.' then
    match splitOnDotAux s.data [] with
    | [p0, p1, p2] => String.mk p2 ++ "-" ++ String.mk p1 ++ "-" ++ String.mk p0
    | _ => s
  else s

/-- `_get_nbu_rate_for_currency(currency, requested_date)`: reads the first
record of the response list, takes `float(rec.get("rate", 0))`, accepts it
only when strictly positive, and derives the actual date from
`rec.get("exchangedate", requested_date)` reformatted. -/
def getNbuRateForCurrency (nbu : NbuOracle) (currency : String)
    (requestedDate : ℤ) : Option (ℚ × String) :=
  match nbu currency requestedDate with
  | some (rec :: _) =>
      let rate := rec.rate.getD 0
      if rate > 0 then
        some (rate, reformatExchangeDate (rec.exchangedate.getD (dateStr requestedDate)))
      else none
  | some [] => none
  | none => none

/-- The `for days_back in range(1, MAX_FALLBACK_DAYS + 1)` loop of
`_get_closest_rate_nbu`, from `days_back = daysBack` with `fuel` iterations
left.  NOTE (line 176-177 of the source): on a successful fallback query the
code discards the record's own actual date (`rate, _ = result`) and reports
the fallback query date as `actual_date`. -/
def nbuWalkFrom (nbu : NbuOracle) (currency : String) (reqDate : ℤ) :
    Nat → Nat → Option (ℚ × String)
  | _, 0 => none
  | daysBack, fuel + 1 =>
      let fallbackDate := reqDate - (daysBack : ℤ)
      match getNbuRateForCurrency nbu currency fallbackDate with
      | some r => some (r.1, dateStr fallbackDate)
      | none => nbuWalkFrom nbu currency reqDate (daysBack + 1) fuel

/-- `_get_closest_rate_nbu(currency, requested_date)`. -/
def getClosestRateNbu (nbu : NbuOracle) (currency : String) (reqDate : ℤ) :
    Option (ℚ × String) :=
  match getNbuRateForCurrency nbu currency reqDate with
  | some r => some r
  | none =>
      if USE_FALLBACK_DATE then
        nbuWalkFrom nbu currency reqDate 1 MAX_FALLBACK_DAYS
      else none

/-! ## Facade -/

/-- `get_major_rate(base, target, date)`: cache lookup, then Frankfurter with
date fallback, then the backup latest-rate source; caches every fresh success
under the requested date.  Returns the optional `(rate, actual_date,
is_fallback)` triple together with the cache after the call. -/
def getMajorRate (frank : FrankOracle) (backup : BackupOracle) (now : ℚ)
    (today : ℤ) (cache : Cache) (base target : String) (d : ℤ) :
    Option (ℚ × String × Bool) × Cache :=
  match getCachedRate cache now base target (dateStr d) with
  | (some (rate, actualDate), c1) =>
      (some (rate, actualDate, actualDate != dateStr d), c1)
  | (none, c1) =>
      match getClosestRateFrankfurter frank base target d with
      | some (rate, actualDate) =>
          (some (rate, actualDate, actualDate != dateStr d),
           cacheRate c1 now base target (dateStr d) rate actualDate)
      | none =>
          match tryExchangerateApiBackup backup base target d today with
          | some (rate, actualDate) =>
              (some (rate, actualDate, actualDate != dateStr d),
               cacheRate c1 now base target (dateStr d) rate actualDate)
          | none => (none, c1)

/-- `get_uah_rate(base, target, date)`: cache lookup, then — when `base` is
`"UAH"` — the NBU rate for `target` inverted (`1.0 / rate`), else — when
`target` is `"UAH"` — the NBU rate for `base` unchanged; any other
combination falls through to the final `return None`. -/
def getUahRate (nbu : NbuOracle) (now : ℚ) (cache : Cache)
    (base target : String) (d : ℤ) : Option (ℚ × String × Bool) × Cache :=
  match getCachedRate cache now base target (dateStr d) with
  | (some (rate, actualDate), c1) =>
      (some (rate, actualDate, actualDate != dateStr d), c1)
  | (none, c1) =>
      if base == "UAH" then
        match getClosestRateNbu nbu target d with
        | some (uahPerTarget, actualDate) =>
            let rate := 1 / uahPerTarget
            (some (rate, actualDate, actualDate != dateStr d),
             cacheRate c1 now base target (dateStr d) rate actualDate)
        | none => (none, c1)
      else if target == "UAH" then
        match getClosestRateNbu nbu base d with
        | some (rate, actualDate) =>
            (some (rate, actualDate, actualDate != dateStr d),
             cacheRate c1 now base target (dateStr d) rate actualDate)
        | none => (none, c1)
      else (none, c1)

/-- `clear_cache()`: empties the cache, returning the number of entries. -/
def clearCache (cache : Cache) : Nat × Cache := (cache.length, [])

/-- The attempt outcomes the retry loop treats as transient: a timeout, a
connection error, or an HTTP status of 500 or above. -/
def isTransientAttempt {α : Type} (r : AttemptResult α) : Prop :=
  r = AttemptResult.timeoutErr ∨ r = AttemptResult.clientErr ∨
    ∃ c : Nat, ∃ b : α, r = AttemptResult.status c b ∧ 500 ≤ c

/-- Fixture for the C1 witness: the NBU provider never has data. -/
def nbuC1 : NbuOracle := fun _ _ => none

/-- Fixture for the C1 witness: the Frankfurter provider never has data. -/
def frankC1 : FrankOracle := fun _ _ _ => none

/-- Fixture for the C2 witness: Frankfurter has data one day before the
requested date 10, reporting its own date string. -/
def frankC2 : FrankOracle := fun _ _ q =>
  if q == 9 then some ⟨some (fun _ => some 2), some "2020-01-31"⟩ else none

/-- Fixture for the C2 witness: the backup source has no data. -/
def backupC2 : BackupOracle := fun _ => none

/-- Fixture for the C2 witness: NBU always reports rate 25 with no
exchangedate field. -/
def nbuC2 : NbuOracle := fun _ _ => some [⟨some 25, none⟩]

/-- Fixture for the C3 witness: NBU reports 27.5 UAH per USD, dated
01.03.2024, on every queried date. -/
def nbuC3 : NbuOracle := fun _ _ => some [⟨some (55/2), some "01.03.2024"⟩]

/-- Fixture for the C6 witness: NBU reports a negative rate. -/
def nbuC6 : NbuOracle := fun _ _ => some [⟨some (-3), none⟩]

/-- Fixture for the C7 counterexample: NBU reports rate 25 for every
queried currency code, "UAH" itself included. -/
def nbuC7 : NbuOracle := fun _ _ => some [⟨some 25, none⟩]

/-- Fixture for the C7 counterexample: NBU with no data at all. -/
def nbuC7none : NbuOracle := fun _ _ => none

/-- Fixture for the C7 witness: NBU has data, which a rejected call must
never see. -/
def nbuC7w : NbuOracle := fun _ _ => some [⟨some 25, none⟩]

/-- Fixture for the C8 counterexample: NBU has data only on day 4, whose
record carries exchangedate "01.03.2024". -/
def nbuC8 : NbuOracle := fun _ t =>
  if t == 4 then some [⟨some (55/2), some "01.03.2024"⟩] else none

/-- Fixture for the C8 witness: same data as the C8 counterexample. -/
def nbuC8w : NbuOracle := fun _ t =>
  if t == 4 then some [⟨some (55/2), some "01.03.2024"⟩] else none

/-- Fixture for the C9 counterexample: Frankfurter answers every query with
rate 0 for every target. -/
def frankC9 : FrankOracle := fun _ _ _ => some ⟨some (fun _ => some 0), none⟩

/-- Fixture for the C9 counterexample: the backup source has no data. -/
def backupC9 : BackupOracle := fun _ => none

/-- Fixture for the C9 witness: NBU always reports rate 25. -/
def nbuC9 : NbuOracle := fun _ _ => some [⟨some 25, none⟩]

/-- Fixture for the C9 witness: Frankfurter always reports rate 3. -/
def frankC9w : FrankOracle := fun _ _ _ => some ⟨some (fun _ => some 3), none⟩

/-- Fixture for the C10 witness: Frankfurter with no data. -/
def frankC10 : FrankOracle := fun _ _ _ => none

/-- Fixture for the C10 witness: backup source with no data. -/
def backupC10 : BackupOracle := fun _ => none

/-- Fixture for the C10 witness: NBU with no data. -/
def nbuC10 : NbuOracle := fun _ _ => none

/-- Fixture for the C5 witness: every attempt times out. -/
def attemptsC5a : Nat → AttemptResult Nat := fun _ => AttemptResult.timeoutErr

/-- Fixture for the C5 witness: first attempt times out, the next returns
HTTP 200 with body `42`. -/
def attemptsC5b : Nat → AttemptResult Nat := fun i =>
  if i == 0 then AttemptResult.timeoutErr else AttemptResult.status 200 42

/-! ## Cache lemmas -/

/-- Looking up the key just stored returns the stored entry. -/
theorem cacheLookup_store_self (c : Cache) (k : String) (v : CacheEntry) :
    cacheLookup (cacheStore c k v) k = some v := by
  simp [cacheLookup, cacheStore, List.find?]

/-- C4: the cache contract.  `_get_cached_rate` keys on base, target and the
requested date; a stored entry strictly younger than the 1-hour TTL is
returned as `(rate, actual_date)`; an entry at least TTL old is deleted and
the lookup reports absent; a missing key reports absent and leaves the cache
unchanged; and an entry stored by `_cache_rate` under the requested date
(whatever its actual date) is a cache hit for a repeat of the same query
within the TTL. -/
theorem C4_cache_contract (cache : Cache) (now nowR : ℚ) (base target dd : String)
    (rate ts : ℚ) (actual : String) :
    (cacheLookup cache (getCacheKey base target dd) = some (rate, ts, actual) →
      now - ts < CACHE_TTL →
      getCachedRate cache now base target dd = (some (rate, actual), cache))
  ∧ (cacheLookup cache (getCacheKey base target dd) = some (rate, ts, actual) →
      ¬ now - ts < CACHE_TTL →
      getCachedRate cache now base target dd =
        (none, cacheErase cache (getCacheKey base target dd)))
  ∧ (cacheLookup cache (getCacheKey base target dd) = none →
      getCachedRate cache now base target dd = (none, cache))
  ∧ (nowR - now < CACHE_TTL →
      (getCachedRate (cacheRate cache now base target dd rate actual)
          nowR base target dd).1 = some (rate, actual)) := by
  refine ⟨?_, ?_, ?_, ?_⟩
  · intro hl hfresh
    simp only [getCachedRate, hl, if_pos hfresh]
  · intro hl hstale
    simp only [getCachedRate, hl, if_neg hstale]
  · intro hl
    simp only [getCachedRate, hl]
  · intro hfresh
    simp only [getCachedRate, cacheRate, cacheLookup_store_self, if_pos hfresh]

/-- Witness for C4 at a concrete cache, key and pair of timestamps. -/
theorem C4_cache_contract_witness :
    getCachedRate [("EUR/USD:5", (2, 0, "5"))] 10 "EUR" "USD" "5" =
        (some (2, "5"), [("EUR/USD:5", (2, 0, "5"))])
  ∧ getCachedRate [("EUR/USD:5", (2, 0, "5"))] 3600 "EUR" "USD" "5" = (none, [])
  ∧ getCachedRate [] 10 "EUR" "USD" "5" = (none, [])
  ∧ (getCachedRate (cacheRate [] 0 "EUR" "USD" "5" 2 "4") 10 "EUR" "USD" "5").1 =
      some (2, "4") := by
  have h := C4_cache_contract [("EUR/USD:5", (2, 0, "5"))] 10 10 "EUR" "USD" "5" 2 0 "5"
  have h2 := C4_cache_contract [("EUR/USD:5", (2, 0, "5"))] 3600 10 "EUR" "USD" "5" 2 0 "5"
  have h3 := C4_cache_contract [] 10 10 "EUR" "USD" "5" 2 0 "5"
  have h4 := C4_cache_contract [] 0 10 "EUR" "USD" "5" 2 0 "4"
  refine ⟨h.1 (by decide) (by norm_num [CACHE_TTL]), ?_, h3.2.2.1 (by decide), ?_⟩
  · have := h2.2.1 (by decide) (by norm_num [CACHE_TTL])
    simpa [cacheErase] using this
  · exact h4.2.2.2 (by norm_num [CACHE_TTL])

/-! ## HTTP fetcher lemmas -/

/-- A 4xx status other than 200 makes the loop body return `None` at once. -/
theorem attemptStep_client {α : Type} (c : Nat) (b : α) (h4 : 400 ≤ c)
    (h5 : c < 500) : attemptStep (AttemptResult.status c b) = some none := by
  have h200 : c ≠ 200 := by omega
  have h500 : ¬ 500 ≤ c := by omega
  by_cases h404 : c = 404 <;> simp [attemptStep, h200, h404, h500]

/-- A transient outcome makes the loop body fall through to the retry path. -/
theorem attemptStep_of_transient {α : Type} (r : AttemptResult α)
    (h : isTransientAttempt r) : attemptStep r = none := by
  rcases h with h | h | ⟨c, b, hr, hc⟩
  · subst h; rfl
  · subst h; rfl
  · subst hr
    have h200 : c ≠ 200 := by omega
    have h404 : c ≠ 404 := by omega
    simp [attemptStep, h200, h404, hc]

/-- C5: response classification of `_http_json_with_retry` with
`MAX_RETRIES = 3`.  A 4xx status (404 included) on the first attempt returns
absent with no retry and no backoff sleep; HTTP 200 returns the body at once;
an unexpected failure aborts at once; three transient outcomes (status ≥ 500,
timeout, connection error) exhaust the attempts, sleeping
`RETRY_DELAY * 2 ^ attempt` between consecutive attempts, and return absent;
a transient first attempt followed by a 200 retries exactly once. -/
theorem C5_http_retry_classification {α : Type} (attempts : Nat → AttemptResult α) :
    (∀ c : Nat, ∀ b : α, attempts 0 = AttemptResult.status c b → 400 ≤ c → c < 500 →
        httpJsonWithRetry attempts MAX_RETRIES = (none, []))
  ∧ (∀ b : α, attempts 0 = AttemptResult.status 200 b →
        httpJsonWithRetry attempts MAX_RETRIES = (some b, []))
  ∧ (attempts 0 = AttemptResult.unexpectedErr →
        httpJsonWithRetry attempts MAX_RETRIES = (none, []))
  ∧ ((∀ i : Nat, i < MAX_RETRIES → isTransientAttempt (attempts i)) →
        httpJsonWithRetry attempts MAX_RETRIES =
          (none, [RETRY_DELAY * 2 ^ 0, RETRY_DELAY * 2 ^ 1]))
  ∧ (∀ b : α, isTransientAttempt (attempts 0) →
        attempts 1 = AttemptResult.status 200 b →
        httpJsonWithRetry attempts MAX_RETRIES = (some b, [RETRY_DELAY * 2 ^ 0])) := by
  refine ⟨?_, ?_, ?_, ?_, ?_⟩
  · intro c b h0 h4 h5
    have hs : attemptStep (attempts 0) = some none := by
      rw [h0]; exact attemptStep_client c b h4 h5
    simp [httpJsonWithRetry, MAX_RETRIES, httpRetryAux, hs]
  · intro b h0
    have hs : attemptStep (attempts 0) = some (some b) := by
      rw [h0]; simp [attemptStep]
    simp [httpJsonWithRetry, MAX_RETRIES, httpRetryAux, hs]
  · intro h0
    have hs : attemptStep (attempts 0) = some none := by rw [h0]; rfl
    simp [httpJsonWithRetry, MAX_RETRIES, httpRetryAux, hs]
  · intro h
    have s0 := attemptStep_of_transient _ (h 0 (by norm_num [MAX_RETRIES]))
    have s1 := attemptStep_of_transient _ (h 1 (by norm_num [MAX_RETRIES]))
    have s2 := attemptStep_of_transient _ (h 2 (by norm_num [MAX_RETRIES]))
    simp [httpJsonWithRetry, MAX_RETRIES, httpRetryAux, s0, s1, s2]
  · intro b h0 h1
    have s0 := attemptStep_of_transient _ h0
    have s1 : attemptStep (attempts 1) = some (some b) := by
      rw [h1]; simp [attemptStep]
    simp [httpJsonWithRetry, MAX_RETRIES, httpRetryAux, s0, s1]

/-- Witness for C5: all-timeout attempts exhaust the three tries with backoff
delays 1 and 2 seconds; a timeout followed by HTTP 200 succeeds after one
1-second backoff. -/
theorem C5_http_retry_classification_witness :
    httpJsonWithRetry attemptsC5a MAX_RETRIES =
        (none, [RETRY_DELAY * 2 ^ 0, RETRY_DELAY * 2 ^ 1])
  ∧ httpJsonWithRetry attemptsC5b MAX_RETRIES = (some 42, [RETRY_DELAY * 2 ^ 0]) := by
  constructor
  · exact (C5_http_retry_classification attemptsC5a).2.2.2.1 (fun i _ => Or.inl rfl)
  · exact (C5_http_retry_classification attemptsC5b).2.2.2.2 42 (Or.inl rfl) rfl

/-! ## Date-walk lemmas -/

/-- An accepted NBU record always carries a strictly positive rate. -/
theorem getNbuRateForCurrency_pos (nbu : NbuOracle) (cur : String) (t : ℤ)
    (r : ℚ) (a : String) (h : getNbuRateForCurrency nbu cur t = some (r, a)) :
    0 < r := by
  unfold getNbuRateForCurrency at h
  rcases hresp : nbu cur t with _ | l
  · rw [hresp] at h; exact absurd h (by simp)
  · rcases l with _ | ⟨rec, rest⟩
    · rw [hresp] at h; exact absurd h (by simp)
    · rw [hresp] at h
      dsimp only at h
      by_cases hr : rec.rate.getD 0 > 0
      · rw [if_pos hr] at h
        simp only [Option.some.injEq, Prod.mk.injEq] at h
        exact h.1 ▸ hr
      · rw [if_neg hr] at h; exact absurd h (by simp)

/-- If every day the NBU fallback loop would visit has no rate, the loop
returns nothing. -/
theorem nbuWalkFrom_none (nbu : NbuOracle) (cur : String) (d : ℤ) :
    ∀ f b : Nat, (∀ k : Nat, b ≤ k → k < b + f →
      getNbuRateForCurrency nbu cur (d - (k : ℤ)) = none) →
    nbuWalkFrom nbu cur d b f = none := by
  intro f
  induction f with
  | zero => intro b _; rfl
  | succ n ih =>
      intro b h
      have hb : getNbuRateForCurrency nbu cur (d - (b : ℤ)) = none :=
        h b le_rfl (by omega)
      simp only [nbuWalkFrom, hb]
      exact ih (b + 1) (fun k hk1 hk2 => h k (by omega) (by omega))

/-- The NBU fallback loop stops at the first visited day with a rate and
reports that day (not the record's own date) as the actual date. -/
theorem nbuWalkFrom_first (nbu : NbuOracle) (cur : String) (d : ℤ)
    (r : ℚ) (a : String) :
    ∀ f b j : Nat, b ≤ j → j < b + f →
    (∀ k : Nat, b ≤ k → k < j → getNbuRateForCurrency nbu cur (d - (k : ℤ)) = none) →
    getNbuRateForCurrency nbu cur (d - (j : ℤ)) = some (r, a) →
    nbuWalkFrom nbu cur d b f = some (r, dateStr (d - (j : ℤ))) := by
  intro f
  induction f with
  | zero => intro b j h1 h2 _ _; omega
  | succ n ih =>
      intro b j hbj hlt hnone hsome
      by_cases hb : b = j
      · subst hb
        simp only [nbuWalkFrom, hsome]
      · have hskip : getNbuRateForCurrency nbu cur (d - (b : ℤ)) = none :=
          hnone b le_rfl (by omega)
        simp only [nbuWalkFrom, hskip]
        exact ih (b + 1) j (by omega) (by omega)
          (fun k hk1 hk2 => hnone k (by omega) hk2) hsome

/-- Every rate the NBU fallback loop returns is strictly positive. -/
theorem nbuWalkFrom_pos (nbu : NbuOracle) (cur : String) (d : ℤ) :
    ∀ f b : Nat, ∀ r : ℚ, ∀ a : String,
    nbuWalkFrom nbu cur d b f = some (r, a) → 0 < r := by
  intro f
  induction f with
  | zero => intro b r a h; exact absurd h (by simp [nbuWalkFrom])
  | succ n ih =>
      intro b r a h
      rcases hq : getNbuRateForCurrency nbu cur (d - (b : ℤ)) with _ | p
      · simp only [nbuWalkFrom, hq] at h
        exact ih (b + 1) r a h
      · simp only [nbuWalkFrom, hq, Option.some.injEq, Prod.mk.injEq] at h
        rw [← h.1]
        exact getNbuRateForCurrency_pos nbu cur (d - (b : ℤ)) p.1 p.2
          (by rw [hq])

/-- Two NBU oracles that agree at the first record on a given date give the
adapter equal results there. -/
theorem getNbuRateForCurrency_congr (nbu nbu2 : NbuOracle) (cur : String)
    (t : ℤ) (h : nbu cur t = nbu2 cur t) :
    getNbuRateForCurrency nbu cur t = getNbuRateForCurrency nbu2 cur t := by
  unfold getNbuRateForCurrency
  rw [h]

/-- The NBU fallback loop only consults dates at or below its first visited
day: oracles agreeing there give equal loop results. -/
theorem nbuWalkFrom_congr (nbu nbu2 : NbuOracle) (cur : String) (d : ℤ) :
    ∀ f b : Nat,
    (∀ t : ℤ, t ≤ d - (b : ℤ) →
      getNbuRateForCurrency nbu cur t = getNbuRateForCurrency nbu2 cur t) →
    nbuWalkFrom nbu cur d b f = nbuWalkFrom nbu2 cur d b f := by
  intro f
  induction f with
  | zero => intro b _; rfl
  | succ n ih =>
      intro b h
      have hq : getNbuRateForCurrency nbu cur (d - (b : ℤ)) =
          getNbuRateForCurrency nbu2 cur (d - (b : ℤ)) := h _ le_rfl
      simp only [nbuWalkFrom, hq]
      rcases hv : getNbuRateForCurrency nbu2 cur (d - (b : ℤ)) with _ | p
      · exact ih (b + 1) (fun t ht => h t (by omega))
      · rfl

/-- If every day the Frankfurter fallback loop would visit has no rate, the
loop returns nothing. -/
theorem frankWalkFrom_none (frank : FrankOracle) (base target : String) (d : ℤ) :
    ∀ f b : Nat, (∀ k : Nat, b ≤ k → k < b + f →
      frankTry frank base target (d - (k : ℤ)) = none) →
    frankWalkFrom frank base target d b f = none := by
  intro f
  induction f with
  | zero => intro b _; rfl
  | succ n ih =>
      intro b h
      have hb : frankTry frank base target (d - (b : ℤ)) = none :=
        h b le_rfl (by omega)
      simp only [frankWalkFrom, hb]
      exact ih (b + 1) (fun k hk1 hk2 => h k (by omega) (by omega))

/-- The Frankfurter fallback loop stops at the first visited day with a rate
and returns the provider's `(rate, actual_date)` unchanged. -/
theorem frankWalkFrom_first (frank : FrankOracle) (base target : String) (d : ℤ)
    (r : ℚ) (a : String) :
    ∀ f b j : Nat, b ≤ j → j < b + f →
    (∀ k : Nat, b ≤ k → k < j → frankTry frank base target (d - (k : ℤ)) = none) →
    frankTry frank base target (d - (j : ℤ)) = some (r, a) →
    frankWalkFrom frank base target d b f = some (r, a) := by
  intro f
  induction f with
  | zero => intro b j h1 h2 _ _; omega
  | succ n ih =>
      intro b j hbj hlt hnone hsome
      by_cases hb : b = j
      · subst hb
        simp only [frankWalkFrom, hsome]
      · have hskip : frankTry frank base target (d - (b : ℤ)) = none :=
          hnone b le_rfl (by omega)
        simp only [frankWalkFrom, hskip]
        exact ih (b + 1) j (by omega) (by omega)
          (fun k hk1 hk2 => hnone k (by omega) hk2) hsome

/-- Two Frankfurter oracles that agree on a date give the per-date query
equal results there. -/
theorem frankTry_congr (frank frank2 : FrankOracle) (base target : String)
    (qd : ℤ) (h : frank base target qd = frank2 base target qd) :
    frankTry frank base target qd = frankTry frank2 base target qd := by
  unfold frankTry
  rw [h]

/-- The Frankfurter fallback loop only consults dates at or below its first
visited day. -/
theorem frankWalkFrom_congr (frank frank2 : FrankOracle) (base target : String)
    (d : ℤ) :
    ∀ f b : Nat,
    (∀ t : ℤ, t ≤ d - (b : ℤ) →
      frankTry frank base target t = frankTry frank2 base target t) →
    frankWalkFrom frank base target d b f = frankWalkFrom frank2 base target d b f := by
  intro f
  induction f with
  | zero => intro b _; rfl
  | succ n ih =>
      intro b h
      have hq : frankTry frank base target (d - (b : ℤ)) =
          frankTry frank2 base target (d - (b : ℤ)) := h _ le_rfl
      simp only [frankWalkFrom, hq]
      rcases hv : frankTry frank2 base target (d - (b : ℤ)) with _ | p
      · exact ih (b + 1) (fun t ht => h t (by omega))
      · rfl

/-! ## Resolver-level lemmas -/

/-- No rate on the requested date nor on any of the 7 preceding days makes
the NBU resolver return absent. -/
theorem getClosestRateNbu_none (nbu : NbuOracle) (cur : String) (d : ℤ)
    (h : ∀ k : Nat, k ≤ MAX_FALLBACK_DAYS →
      getNbuRateForCurrency nbu cur (d - (k : ℤ)) = none) :
    getClosestRateNbu nbu cur d = none := by
  have h0 : getNbuRateForCurrency nbu cur d = none := by
    have := h 0 (by simp [MAX_FALLBACK_DAYS])
    simpa using this
  simp only [getClosestRateNbu, h0, USE_FALLBACK_DATE, if_true]
  exact nbuWalkFrom_none nbu cur d MAX_FALLBACK_DAYS 1
    (fun k hk1 hk2 => h k (by simp only [MAX_FALLBACK_DAYS] at hk2 ⊢; omega))

/-- The NBU resolver returns the first day's rate in the backward walk:
the requested day itself if it has one (keeping the adapter's actual date),
else the first of the 7 preceding days with one (reporting that day). -/
theorem getClosestRateNbu_first (nbu : NbuOracle) (cur : String) (d : ℤ)
    (j : Nat) (hj : j ≤ MAX_FALLBACK_DAYS)
    (hnone : ∀ k : Nat, k < j → getNbuRateForCurrency nbu cur (d - (k : ℤ)) = none)
    (r : ℚ) (a : String)
    (hsome : getNbuRateForCurrency nbu cur (d - (j : ℤ)) = some (r, a)) :
    getClosestRateNbu nbu cur d =
      some (r, if j = 0 then a else dateStr (d - (j : ℤ))) := by
  rcases Nat.eq_zero_or_pos j with hz | hpos
  · subst hz
    have h0 : getNbuRateForCurrency nbu cur d = some (r, a) := by
      simpa using hsome
    simp [getClosestRateNbu, h0]
  · have h0 : getNbuRateForCurrency nbu cur d = none := by
      have := hnone 0 hpos
      simpa using this
    have hw := nbuWalkFrom_first nbu cur d r a MAX_FALLBACK_DAYS 1 j hpos
      (by simp only [MAX_FALLBACK_DAYS] at hj ⊢; omega)
      (fun k hk1 hk2 => hnone k hk2) hsome
    simp only [getClosestRateNbu, h0, USE_FALLBACK_DATE, if_true, hw,
      if_neg (by omega : ¬ j = 0)]

/-- Every rate the NBU resolver returns is strictly positive. -/
theorem getClosestRateNbu_pos (nbu : NbuOracle) (cur : String) (d : ℤ)
    (r : ℚ) (a : String) (h : getClosestRateNbu nbu cur d = some (r, a)) :
    0 < r := by
  unfold getClosestRateNbu at h
  rcases hq : getNbuRateForCurrency nbu cur d with _ | p
  · rw [hq] at h
    dsimp only at h
    simp only [USE_FALLBACK_DATE, if_true] at h
    exact nbuWalkFrom_pos nbu cur d MAX_FALLBACK_DAYS 1 r a h
  · rw [hq] at h
    dsimp only at h
    simp only [Option.some.injEq] at h
    exact getNbuRateForCurrency_pos nbu cur d r a (by rw [hq, h])

/-- The NBU resolver consults no date later than the requested one: oracles
agreeing at or before it give equal results. -/
theorem getClosestRateNbu_congr (nbu nbu2 : NbuOracle) (cur : String) (d : ℤ)
    (h : ∀ c : String, ∀ t : ℤ, t ≤ d → nbu c t = nbu2 c t) :
    getClosestRateNbu nbu cur d = getClosestRateNbu nbu2 cur d := by
  have hQ : ∀ t : ℤ, t ≤ d →
      getNbuRateForCurrency nbu cur t = getNbuRateForCurrency nbu2 cur t :=
    fun t ht => getNbuRateForCurrency_congr nbu nbu2 cur t (h cur t ht)
  have h0 := hQ d le_rfl
  unfold getClosestRateNbu
  rw [h0]
  rcases hv : getNbuRateForCurrency nbu2 cur d with _ | p
  · dsimp only
    rw [nbuWalkFrom_congr nbu nbu2 cur d MAX_FALLBACK_DAYS 1
      (fun t ht => hQ t (by omega))]
  · rfl

/-- No rate on the requested date nor on any of the 7 preceding days makes
the Frankfurter resolver return absent. -/
theorem getClosestRateFrankfurter_none (frank : FrankOracle)
    (base target : String) (d : ℤ)
    (h : ∀ k : Nat, k ≤ MAX_FALLBACK_DAYS →
      frankTry frank base target (d - (k : ℤ)) = none) :
    getClosestRateFrankfurter frank base target d = none := by
  have h0 : frankTry frank base target d = none := by
    have := h 0 (by simp [MAX_FALLBACK_DAYS])
    simpa using this
  simp only [getClosestRateFrankfurter, h0, USE_FALLBACK_DATE, if_true]
  exact frankWalkFrom_none frank base target d MAX_FALLBACK_DAYS 1
    (fun k hk1 hk2 => h k (by simp only [MAX_FALLBACK_DAYS] at hk2 ⊢; omega))

/-- The Frankfurter resolver returns the first day's rate in the backward
walk, keeping the provider's `(rate, actual_date)` pair unchanged. -/
theorem getClosestRateFrankfurter_first (frank : FrankOracle)
    (base target : String) (d : ℤ) (j : Nat) (hj : j ≤ MAX_FALLBACK_DAYS)
    (hnone : ∀ k : Nat, k < j → frankTry frank base target (d - (k : ℤ)) = none)
    (r : ℚ) (a : String)
    (hsome : frankTry frank base target (d - (j : ℤ)) = some (r, a)) :
    getClosestRateFrankfurter frank base target d = some (r, a) := by
  rcases Nat.eq_zero_or_pos j with hz | hpos
  · subst hz
    have h0 : frankTry frank base target d = some (r, a) := by
      simpa using hsome
    simp [getClosestRateFrankfurter, h0]
  · have h0 : frankTry frank base target d = none := by
      have := hnone 0 hpos
      simpa using this
    have hw := frankWalkFrom_first frank base target d r a MAX_FALLBACK_DAYS 1 j hpos
      (by simp only [MAX_FALLBACK_DAYS] at hj ⊢; omega)
      (fun k hk1 hk2 => hnone k hk2) hsome
    simp only [getClosestRateFrankfurter, h0, USE_FALLBACK_DATE, if_true, hw]

/-- The Frankfurter resolver consults no date later than the requested one. -/
theorem getClosestRateFrankfurter_congr (frank frank2 : FrankOracle)
    (base target : String) (d : ℤ)
    (h : ∀ b2 t2 : String, ∀ q : ℤ, q ≤ d → frank b2 t2 q = frank2 b2 t2 q) :
    getClosestRateFrankfurter frank base target d =
      getClosestRateFrankfurter frank2 base target d := by
  have hQ : ∀ q : ℤ, q ≤ d →
      frankTry frank base target q = frankTry frank2 base target q :=
    fun q hq => frankTry_congr frank frank2 base target q (h base target q hq)
  have h0 := hQ d le_rfl
  unfold getClosestRateFrankfurter
  rw [h0]
  rcases hv : frankTry frank2 base target d with _ | p
  · dsimp only
    rw [frankWalkFrom_congr frank frank2 base target d MAX_FALLBACK_DAYS 1
      (fun q hq => hQ q (by omega))]
  · rfl

/-- C1: on a requested date whose exact-date query yields no rate, both
resolvers step backward one calendar day at a time, re-querying at each
step; they return absent when no day in the 7-day window has a rate; they
stop at the first day with a rate; and they never consult a date later than
the requested one (results are unchanged under any change of the oracle at
later dates). -/
theorem C1_backward_date_walk (nbu : NbuOracle) (frank : FrankOracle)
    (cur base target : String) (d : ℤ) :
    ((∀ k : Nat, k ≤ MAX_FALLBACK_DAYS →
        getNbuRateForCurrency nbu cur (d - (k : ℤ)) = none) →
      getClosestRateNbu nbu cur d = none)
  ∧ ((∀ k : Nat, k ≤ MAX_FALLBACK_DAYS →
        frankTry frank base target (d - (k : ℤ)) = none) →
      getClosestRateFrankfurter frank base target d = none)
  ∧ (∀ j : Nat, j ≤ MAX_FALLBACK_DAYS →
      (∀ k : Nat, k < j → getNbuRateForCurrency nbu cur (d - (k : ℤ)) = none) →
      ∀ r : ℚ, ∀ a : String,
      getNbuRateForCurrency nbu cur (d - (j : ℤ)) = some (r, a) →
      getClosestRateNbu nbu cur d =
        some (r, if j = 0 then a else dateStr (d - (j : ℤ))))
  ∧ (∀ j : Nat, j ≤ MAX_FALLBACK_DAYS →
      (∀ k : Nat, k < j → frankTry frank base target (d - (k : ℤ)) = none) →
      ∀ r : ℚ, ∀ a : String,
      frankTry frank base target (d - (j : ℤ)) = some (r, a) →
      getClosestRateFrankfurter frank base target d = some (r, a))
  ∧ (∀ nbu2 : NbuOracle, (∀ c : String, ∀ t : ℤ, t ≤ d → nbu c t = nbu2 c t) →
      getClosestRateNbu nbu cur d = getClosestRateNbu nbu2 cur d)
  ∧ (∀ frank2 : FrankOracle,
      (∀ b2 t2 : String, ∀ q : ℤ, q ≤ d → frank b2 t2 q = frank2 b2 t2 q) →
      getClosestRateFrankfurter frank base target d =
        getClosestRateFrankfurter frank2 base target d) := by
  refine ⟨getClosestRateNbu_none nbu cur d,
    getClosestRateFrankfurter_none frank base target d, ?_, ?_, ?_, ?_⟩
  · intro j hj hnone r a hsome
    exact getClosestRateNbu_first nbu cur d j hj hnone r a hsome
  · intro j hj hnone r a hsome
    exact getClosestRateFrankfurter_first frank base target d j hj hnone r a hsome
  · intro nbu2 h
    exact getClosestRateNbu_congr nbu nbu2 cur d h
  · intro frank2 h
    exact getClosestRateFrankfurter_congr frank frank2 base target d h

/-- Witness for C1: with providers that never have data, both resolvers
report absence for the whole lookback window. -/
theorem C1_backward_date_walk_witness :
    getClosestRateNbu nbuC1 "USD" 0 = none
  ∧ getClosestRateFrankfurter frankC1 "EUR" "USD" 0 = none := by
  have h := C1_backward_date_walk nbuC1 frankC1 "USD" "EUR" "USD" 0
  exact ⟨h.1 (fun k _ => rfl), h.2.1 (fun k _ => rfl)⟩

/-! ## Facade lemmas -/

/-- Every triple `get_major_rate` returns carries
`is_fallback = (actual_date != requested-date-string)`. -/
theorem getMajorRate_fallback_flag (frank : FrankOracle) (backup : BackupOracle)
    (now : ℚ) (today : ℤ) (cache : Cache) (base target : String) (d : ℤ)
    (p : ℚ × String × Bool)
    (h : (getMajorRate frank backup now today cache base target d).1 = some p) :
    p.2.2 = (p.2.1 != dateStr d) := by
  unfold getMajorRate at h
  repeat' split at h
  all_goals (try simp at h)
  all_goals (subst h; rfl)

/-- Every triple `get_uah_rate` returns carries
`is_fallback = (actual_date != requested-date-string)`. -/
theorem getUahRate_fallback_flag (nbu : NbuOracle) (now : ℚ) (cache : Cache)
    (base target : String) (d : ℤ) (p : ℚ × String × Bool)
    (h : (getUahRate nbu now cache base target d).1 = some p) :
    p.2.2 = (p.2.1 != dateStr d) := by
  unfold getUahRate at h
  repeat' split at h
  all_goals (try simp at h)
  all_goals (subst h; rfl)

/-- C2: in every result of `get_major_rate` and of `get_uah_rate`, whether
served from cache or freshly resolved, `is_fallback` is true exactly when
the actual date differs from the requested date. -/
theorem C2_is_fallback_iff (frank : FrankOracle) (backup : BackupOracle)
    (nbu : NbuOracle) (now : ℚ) (today : ℤ) (cache : Cache)
    (base target : String) (d : ℤ) :
    (∀ rate : ℚ, ∀ actual : String, ∀ fb : Bool,
      (getMajorRate frank backup now today cache base target d).1 =
        some (rate, actual, fb) → (fb = true ↔ actual ≠ dateStr d))
  ∧ (∀ rate : ℚ, ∀ actual : String, ∀ fb : Bool,
      (getUahRate nbu now cache base target d).1 = some (rate, actual, fb) →
      (fb = true ↔ actual ≠ dateStr d)) := by
  constructor
  · intro rate actual fb h
    have hs := getMajorRate_fallback_flag frank backup now today cache base
      target d (rate, actual, fb) h
    dsimp only at hs
    rw [hs]
    exact bne_iff_ne
  · intro rate actual fb h
    have hs := getUahRate_fallback_flag nbu now cache base target d
      (rate, actual, fb) h
    dsimp only at hs
    rw [hs]
    exact bne_iff_ne

/-- Witness for C2: a fresh Frankfurter resolution served from the previous
day has `is_fallback = true`; a fresh NBU resolution on the requested day
has `is_fallback = false`. -/
theorem C2_is_fallback_iff_witness :
    (getMajorRate frankC2 backupC2 0 0 [] "EUR" "USD" 10).1 =
        some (2, "2020-01-31", true)
  ∧ (true = true ↔ ("2020-01-31" : String) ≠ dateStr 10)
  ∧ (getUahRate nbuC2 0 [] "USD" "UAH" 0).1 = some (25, "0", false)
  ∧ (false = true ↔ ("0" : String) ≠ dateStr 0) := by
  have h1 : (getMajorRate frankC2 backupC2 0 0 [] "EUR" "USD" 10).1 =
      some (2, "2020-01-31", true) := by
    simp [getMajorRate, getCachedRate, cacheLookup, getCacheKey,
      getClosestRateFrankfurter, frankTry, frankWalkFrom, frankC2, dateStr,
      MAX_FALLBACK_DAYS, USE_FALLBACK_DATE]
    decide
  have h2 : (getUahRate nbuC2 0 [] "USD" "UAH" 0).1 = some (25, "0", false) := by
    simp [getUahRate, getCachedRate, cacheLookup, getCacheKey,
      getClosestRateNbu, getNbuRateForCurrency, nbuC2, reformatExchangeDate,
      dateStr]
    decide
  refine ⟨h1, ?_, h2, ?_⟩
  · exact (C2_is_fallback_iff frankC2 backupC2 nbuC2 0 0 [] "EUR" "USD" 10).1
      2 "2020-01-31" true h1
  · exact (C2_is_fallback_iff frankC2 backupC2 nbuC2 0 0 [] "USD" "UAH" 0).2
      25 "0" false h2

/-- C3: with the single NBU authority, resolving `(UAH, X, d)` inverts the
raw rate and resolving `(X, UAH, d)` returns it unchanged, so the two rates
multiply to exactly 1 (float division is modelled as exact rational
division). -/
theorem C3_inversion_round_trip (nbu : NbuOracle) (X : String)
    (hX : X ≠ "UAH") (now : ℚ) (d : ℤ) (raw : ℚ) (a : String)
    (h : getClosestRateNbu nbu X d = some (raw, a)) :
    (getUahRate nbu now [] "UAH" X d).1 = some (1 / raw, a, a != dateStr d)
  ∧ (getUahRate nbu now [] X "UAH" d).1 = some (raw, a, a != dateStr d)
  ∧ (1 / raw) * raw = 1 := by
  have hpos := getClosestRateNbu_pos nbu X d raw a h
  have hne : raw ≠ 0 := ne_of_gt hpos
  have hcache : getCachedRate [] now "UAH" X (dateStr d) = (none, []) := rfl
  have hcache2 : getCachedRate [] now X "UAH" (dateStr d) = (none, []) := rfl
  have hXb : (X == "UAH") = false := by simp [hX]
  refine ⟨?_, ?_, one_div_mul_cancel hne⟩
  · unfold getUahRate
    rw [hcache]
    simp [h]
  · unfold getUahRate
    rw [hcache2]
    simp [hXb, h]

/-- Witness for C3 at the NBU fixture reporting 27.5 UAH per USD. -/
theorem C3_inversion_round_trip_witness :
    (getUahRate nbuC3 0 [] "UAH" "USD" 0).1 =
        some (1 / (55/2), "2024-03-01", true)
  ∧ (getUahRate nbuC3 0 [] "USD" "UAH" 0).1 = some (55/2, "2024-03-01", true)
  ∧ (1 / (55/2 : ℚ)) * (55/2) = 1 := by
  have h : getClosestRateNbu nbuC3 "USD" 0 = some (55/2, "2024-03-01") := by
    simp [getClosestRateNbu, getNbuRateForCurrency, nbuC3, reformatExchangeDate]
    decide
  obtain ⟨h1, h2, h3⟩ := C3_inversion_round_trip nbuC3 "USD" (by decide) 0 0
    (55/2) "2024-03-01" h
  rw [show (("2024-03-01" : String) != dateStr 0) = true from by decide] at h1 h2
  exact ⟨h1, h2, h3⟩

/-- C6: an NBU response whose first record carries a non-positive raw rate
is treated as "no data": the adapter returns absent, the resolver falls
through to the backward date walk, and no non-positive rate can ever be
returned by the resolver. -/
theorem C6_nonpositive_rate_rejected (nbu : NbuOracle) (cur : String) (d : ℤ)
    (rec : NbuRec) (rest : List NbuRec)
    (hresp : nbu cur d = some (rec :: rest)) (hr : rec.rate.getD 0 ≤ 0) :
    getNbuRateForCurrency nbu cur d = none
  ∧ getClosestRateNbu nbu cur d = nbuWalkFrom nbu cur d 1 MAX_FALLBACK_DAYS
  ∧ (∀ r : ℚ, ∀ a : String, getClosestRateNbu nbu cur d = some (r, a) → 0 < r) := by
  have h1 : getNbuRateForCurrency nbu cur d = none := by
    unfold getNbuRateForCurrency
    rw [hresp]
    dsimp only
    rw [if_neg (not_lt.mpr hr)]
  refine ⟨h1, ?_, ?_⟩
  · simp only [getClosestRateNbu, h1, USE_FALLBACK_DATE, if_true]
  · intro r a h
    exact getClosestRateNbu_pos nbu cur d r a h

/-- Witness for C6 at an NBU fixture reporting rate −3. -/
theorem C6_nonpositive_rate_rejected_witness :
    getNbuRateForCurrency nbuC6 "USD" 0 = none
  ∧ getClosestRateNbu nbuC6 "USD" 0 = nbuWalkFrom nbuC6 "USD" 0 1 MAX_FALLBACK_DAYS := by
  have h := C6_nonpositive_rate_rejected nbuC6 "USD" 0 ⟨some (-3), none⟩ []
    rfl (by norm_num [Option.getD_some])
  exact ⟨h.1, h.2.1⟩

/-- C10: a resolution call that returns absence performs no cache write: the
cache after the call is exactly the cache after the initial lookup, and that
lookup either leaves the cache unchanged or merely evicts the expired entry
under the queried key. -/
theorem C10_no_cache_write_on_failure (frank : FrankOracle)
    (backup : BackupOracle) (nbu : NbuOracle) (now : ℚ) (today : ℤ)
    (cache : Cache) (base target : String) (d : ℤ) :
    ((getMajorRate frank backup now today cache base target d).1 = none →
      (getMajorRate frank backup now today cache base target d).2 =
        (getCachedRate cache now base target (dateStr d)).2)
  ∧ ((getUahRate nbu now cache base target d).1 = none →
      (getUahRate nbu now cache base target d).2 =
        (getCachedRate cache now base target (dateStr d)).2)
  ∧ ((getCachedRate cache now base target (dateStr d)).2 = cache
      ∨ ((getCachedRate cache now base target (dateStr d)).1 = none ∧
         (getCachedRate cache now base target (dateStr d)).2 =
           cacheErase cache (getCacheKey base target (dateStr d)))) := by
  refine ⟨?_, ?_, ?_⟩
  · intro h
    rcases hgc : getCachedRate cache now base target (dateStr d) with ⟨copt, c1⟩
    unfold getMajorRate at h ⊢
    rw [hgc] at h ⊢
    rcases copt with _ | cp
    · dsimp only at h ⊢
      rcases hf : getClosestRateFrankfurter frank base target d with _ | fp
      · rw [hf] at h
        dsimp only at h
        rcases hb : tryExchangerateApiBackup backup base target d today with _ | bp
        · rfl
        · rcases bp with ⟨br, ba⟩
          rw [hb] at h
          simp at h
      · rcases fp with ⟨fr, fa⟩
        rw [hf] at h
        simp at h
    · rcases cp with ⟨cr, ca⟩
      dsimp only at h
      simp at h
  · intro h
    rcases hgc : getCachedRate cache now base target (dateStr d) with ⟨copt, c1⟩
    unfold getUahRate at h ⊢
    rw [hgc] at h ⊢
    rcases copt with _ | cp
    · dsimp only at h ⊢
      split_ifs at h ⊢
      · rcases hn : getClosestRateNbu nbu target d with _ | np
        · rfl
        · rcases np with ⟨nr, na⟩
          rw [hn] at h
          simp at h
      · rcases hn : getClosestRateNbu nbu base d with _ | np
        · rfl
        · rcases np with ⟨nr, na⟩
          rw [hn] at h
          simp at h
      · rfl
    · rcases cp with ⟨cr, ca⟩
      dsimp only at h
      simp at h
  · unfold getCachedRate
    dsimp only
    rcases hl : cacheLookup cache (getCacheKey base target (dateStr d)) with _ | ⟨r, ts, a⟩
    · left; rfl
    · dsimp only
      by_cases hfresh : now - ts < CACHE_TTL
      · rw [if_pos hfresh]; left; rfl
      · rw [if_neg hfresh]; right; exact ⟨rfl, rfl⟩

/-- Witness for C10: with empty providers both facades fail and leave the
(empty) cache exactly as the initial lookup left it. -/
theorem C10_no_cache_write_on_failure_witness :
    (getMajorRate frankC10 backupC10 0 0 [] "EUR" "USD" 0).2 =
      (getCachedRate [] 0 "EUR" "USD" (dateStr 0)).2
  ∧ (getUahRate nbuC10 0 [] "UAH" "USD" 0).2 =
      (getCachedRate [] 0 "UAH" "USD" (dateStr 0)).2 := by
  have h1 := C10_no_cache_write_on_failure frankC10 backupC10 nbuC10 0 0 []
    "EUR" "USD" 0
  have h2 := C10_no_cache_write_on_failure frankC10 backupC10 nbuC10 0 0 []
    "UAH" "USD" 0
  exact ⟨h1.1 rfl, h2.2.1 rfl⟩

/-! ## C7: the both-UAH case is NOT rejected -/

/-- C7 counterexample: a call with base and target both `"UAH"` takes the
`base == "UAH"` branch, queries the NBU provider for valcode `"UAH"`, and —
when the provider reports a positive rate — returns its inversion instead of
"not found"; replacing the provider by one with no data changes the outcome,
so the provider is consulted. -/
theorem C7_counterexample :
    (getUahRate nbuC7 0 [] "UAH" "UAH" 0).1 = some (1/25, "0", false)
  ∧ (getUahRate nbuC7none 0 [] "UAH" "UAH" 0).1 = none := by
  constructor
  · simp [getUahRate, getCachedRate, cacheLookup, getCacheKey,
      getClosestRateNbu, getNbuRateForCurrency, nbuC7, reformatExchangeDate,
      dateStr]
    decide
  · rfl

/-- C7 (amended): only the neither-side-UAH combination is rejected as a
caller contract violation: on a cache miss it returns "not found" without
consulting the provider (the result is oracle-independent) and without
raising; the both-UAH combination instead takes the base-UAH branch and
queries the provider for "UAH". -/
theorem C7_amended_reject (nbu : NbuOracle) (now : ℚ) (cache : Cache)
    (base target : String) (d : ℤ) (hb : base ≠ "UAH") (ht : target ≠ "UAH")
    (hmiss : (getCachedRate cache now base target (dateStr d)).1 = none) :
    (getUahRate nbu now cache base target d).1 = none
  ∧ (∀ nbu2 : NbuOracle, getUahRate nbu now cache base target d =
      getUahRate nbu2 now cache base target d) := by
  rcases hgc : getCachedRate cache now base target (dateStr d) with ⟨copt, c1⟩
  rw [hgc] at hmiss
  dsimp only at hmiss
  subst hmiss
  have hbb : ¬ ((base == "UAH") = true) := by simp [hb]
  have htt : ¬ ((target == "UAH") = true) := by simp [ht]
  constructor
  · unfold getUahRate
    rw [hgc]
    dsimp only
    rw [if_neg hbb, if_neg htt]
  · intro nbu2
    unfold getUahRate
    rw [hgc]
    dsimp only
    rw [if_neg hbb, if_neg htt, if_neg hbb, if_neg htt]

/-- Witness for C7 (amended): a EUR/USD call through the UAH facade returns
absence even though the provider has data. -/
theorem C7_amended_reject_witness :
    (getUahRate nbuC7w 0 [] "EUR" "USD" 0).1 = none := by
  exact (C7_amended_reject nbuC7w 0 [] "EUR" "USD" 0 (by decide) (by decide)
    rfl).1

/-! ## C8: the fallback walk discards the authority's exchangedate -/

/-- C8 counterexample: requested date 5 has no NBU data, day 4 answers with
exchangedate `"01.03.2024"` (reformatted `"2024-03-01"`); the accepted
fallback response's reported exchange date is discarded and the walk's own
query date becomes the actual date, at the resolver and at the facade. -/
theorem C8_counterexample :
    getNbuRateForCurrency nbuC8 "USD" 4 = some (55/2, "2024-03-01")
  ∧ getClosestRateNbu nbuC8 "USD" 5 = some (55/2, dateStr 4)
  ∧ (getUahRate nbuC8 0 [] "USD" "UAH" 5).1 = some (55/2, dateStr 4, true)
  ∧ dateStr 4 ≠ reformatExchangeDate "01.03.2024" := by
  refine ⟨?_, ?_, ?_, by decide⟩
  · simp [getNbuRateForCurrency, nbuC8, reformatExchangeDate]
    decide
  · simp [getClosestRateNbu, getNbuRateForCurrency, nbuC8, nbuWalkFrom,
      reformatExchangeDate, dateStr, MAX_FALLBACK_DAYS, USE_FALLBACK_DATE]
  · simp [getUahRate, getCachedRate, cacheLookup, getCacheKey,
      getClosestRateNbu, getNbuRateForCurrency, nbuC8, nbuWalkFrom,
      reformatExchangeDate, dateStr, MAX_FALLBACK_DAYS, USE_FALLBACK_DATE]
    decide

/-- C8 (amended): the authority's reformatted exchangedate becomes the
actual date only when the exact requested-date query is the one accepted;
a response accepted on a fallback day has its exchangedate discarded and
the fallback query date reported instead. -/
theorem C8_amended_exchangedate (nbu : NbuOracle) (cur : String) (d : ℤ)
    (rec : NbuRec) (rest : List NbuRec) :
    (nbu cur d = some (rec :: rest) → 0 < rec.rate.getD 0 →
      getClosestRateNbu nbu cur d =
        some (rec.rate.getD 0,
          reformatExchangeDate (rec.exchangedate.getD (dateStr d))))
  ∧ (∀ j : Nat, 1 ≤ j → j ≤ MAX_FALLBACK_DAYS →
      (∀ k : Nat, k < j → getNbuRateForCurrency nbu cur (d - (k : ℤ)) = none) →
      ∀ r : ℚ, ∀ a : String,
      getNbuRateForCurrency nbu cur (d - (j : ℤ)) = some (r, a) →
      getClosestRateNbu nbu cur d = some (r, dateStr (d - (j : ℤ)))) := by
  constructor
  · intro hresp hpos
    have hq : getNbuRateForCurrency nbu cur d =
        some (rec.rate.getD 0,
          reformatExchangeDate (rec.exchangedate.getD (dateStr d))) := by
      unfold getNbuRateForCurrency
      rw [hresp]
      dsimp only
      rw [if_pos hpos]
    simp [getClosestRateNbu, hq]
  · intro j hj1 hj7 hnone r a hsome
    have h := getClosestRateNbu_first nbu cur d j hj7 hnone r a hsome
    rw [if_neg (by omega)] at h
    exact h

/-- Witness for C8 (amended): on day 4 the exchangedate is used; requesting
day 5 falls back to day 4 and reports day 4, not the exchangedate. -/
theorem C8_amended_exchangedate_witness :
    getClosestRateNbu nbuC8w "USD" 4 = some (55/2, "2024-03-01")
  ∧ getClosestRateNbu nbuC8w "USD" 5 = some (55/2, dateStr 4) := by
  have h4 := (C8_amended_exchangedate nbuC8w "USD" 4
    ⟨some (55/2), some "01.03.2024"⟩ []).1 rfl (by norm_num [Option.getD_some])
  have hnone : ∀ k : Nat, k < 1 →
      getNbuRateForCurrency nbuC8w "USD" ((5 : ℤ) - (k : ℤ)) = none := by
    intro k hk
    interval_cases k
    rfl
  have hsome : getNbuRateForCurrency nbuC8w "USD" ((5 : ℤ) - ((1 : Nat) : ℤ)) =
      some (55/2, "2024-03-01") := by
    simp [getNbuRateForCurrency, nbuC8w, reformatExchangeDate]
    decide
  have h5 := (C8_amended_exchangedate nbuC8w "USD" 5
    ⟨some (55/2), some "01.03.2024"⟩ []).2 1 le_rfl
    (by simp [MAX_FALLBACK_DAYS]) hnone (55/2) "2024-03-01" hsome
  constructor
  · rw [h4]
    rw [show reformatExchangeDate ((some "01.03.2024").getD (dateStr 4)) =
      "2024-03-01" from by decide]
    rfl
  · rw [h5]
    rw [show (5 : ℤ) - ((1 : Nat) : ℤ) = 4 from by decide]


/-! ## C9: the major path has no positivity check -/

/-- C9 counterexample: a Frankfurter response carrying rate 0 is passed
through by `get_major_rate` unchecked, so the returned rate is not strictly
positive. -/
theorem C9_counterexample :
    (getMajorRate frankC9 backupC9 0 0 [] "EUR" "USD" 0).1 =
        some (0, "0", false)
  ∧ ¬ (0 : ℚ) > 0 := by
  constructor
  · simp [getMajorRate, getCachedRate, cacheLookup, getCacheKey,
      getClosestRateFrankfurter, frankTry, frankC9, dateStr]
    decide
  · norm_num

/-- C9 (amended): rates resolved fresh by `get_uah_rate` are strictly
positive (the NBU adapter rejects non-positive raw rates and inversion
preserves positivity); `get_major_rate` applies no such check and returns
exactly the numeric value found in the provider's rates mapping. -/
theorem C9_amended_positivity (nbu : NbuOracle) (frank : FrankOracle)
    (now : ℚ) (cache : Cache) (base target : String) (d : ℤ) :
    (∀ rate : ℚ, ∀ a : String, ∀ fb : Bool,
      (getCachedRate cache now base target (dateStr d)).1 = none →
      (getUahRate nbu now cache base target d).1 = some (rate, a, fb) →
      0 < rate)
  ∧ (∀ qd : ℤ, ∀ rate : ℚ, ∀ a : String,
      frankTry frank base target qd = some (rate, a) →
      ∃ data : ApiData, ∃ m : String → Option ℚ,
        frank base target qd = some data ∧ data.rates = some m ∧
          m target = some rate) := by
  constructor
  · intro rate a fb hmiss h
    rcases hgc : getCachedRate cache now base target (dateStr d) with ⟨copt, c1⟩
    rw [hgc] at hmiss
    dsimp only at hmiss
    subst hmiss
    unfold getUahRate at h
    rw [hgc] at h
    dsimp only at h
    split_ifs at h
    · rcases hn : getClosestRateNbu nbu target d with _ | np
      · rw [hn] at h; simp at h
      · rcases np with ⟨nr, na⟩
        rw [hn] at h
        simp only [Option.some.injEq, Prod.mk.injEq] at h
        rw [← h.1]
        have := getClosestRateNbu_pos nbu target d nr na hn
        positivity
    · rcases hn : getClosestRateNbu nbu base d with _ | np
      · rw [hn] at h; simp at h
      · rcases np with ⟨nr, na⟩
        rw [hn] at h
        simp only [Option.some.injEq, Prod.mk.injEq] at h
        rw [← h.1]
        exact getClosestRateNbu_pos nbu base d nr na hn
  · intro qd rate a h
    unfold frankTry at h
    rcases hfr : frank base target qd with _ | data
    · rw [hfr] at h; simp at h
    · rw [hfr] at h
      dsimp only at h
      rcases hm : data.rates with _ | m
      · rw [hm] at h; simp at h
      · rw [hm] at h
        dsimp only at h
        rcases hv : m target with _ | v
        · rw [hv] at h; simp at h
        · rw [hv] at h
          simp only [Option.some.injEq, Prod.mk.injEq] at h
          exact ⟨data, m, rfl, hm, by rw [hv, h.1]⟩

/-- Witness for C9 (amended): a fresh UAH resolution at rate 25 yields the
positive rate 1/25; a Frankfurter query passes its mapping value 3 through. -/
theorem C9_amended_positivity_witness :
    (0 : ℚ) < 1/25
  ∧ (getUahRate nbuC9 0 [] "UAH" "USD" 0).1 = some (1/25, "0", false)
  ∧ frankTry frankC9w "EUR" "USD" 0 = some (3, "0") := by
  have heval : (getUahRate nbuC9 0 [] "UAH" "USD" 0).1 =
      some (1/25, "0", false) := by
    simp [getUahRate, getCachedRate, cacheLookup, getCacheKey,
      getClosestRateNbu, getNbuRateForCurrency, nbuC9, reformatExchangeDate,
      dateStr]
    decide
  have hf : frankTry frankC9w "EUR" "USD" 0 = some (3, "0") := by
    simp [frankTry, frankC9w, dateStr]
    decide
  refine ⟨?_, heval, hf⟩
  exact (C9_amended_positivity nbuC9 frankC9w 0 [] "UAH" "USD" 0).1 (1/25) "0"
    false rfl heval

end RatesBot
